import Mathlib

/-!
Verification of the data-cleaning and SQL-generation core of the
Excel-to-JSON/SQL converter (`excelJson.py`).

Python strings are modelled as lists of Unicode code points (`List Nat`);
the helper `pyString` converts a Lean string literal to this representation
so that concrete test inputs stay readable.  The character classes used by
the source (`\w`, `\s`, `str.isdigit`, `str.lower`) are modelled over the
ASCII range, which is the range the source's regular expressions and the
fixed null-like tokens operate on.
-/

set_option autoImplicit false

namespace ExcelJson

/-- Python strings as lists of code points. -/
abbrev Str := List Nat

/-- Convert a Lean string literal to the code-point model. -/
def pyString (s : String) : Str := s.data.map Char.toNat

/-- Whitespace (` \t\n\v\f\r`), the restriction of `str.strip()` and of the
regex class `\s` to the printable-ASCII range.  Like the other character
classes below it is faithful on ASCII inputs, to which the sanitizer
theorems restrict themselves. -/
def isPySpace (c : Nat) : Bool := decide (c = 32 ∨ c = 9 ∨ c = 10 ∨ c = 11 ∨ c = 12 ∨ c = 13)

/-- The restriction of the regex class `\w` to ASCII: letters, digits,
underscore.  Python's default `\w` is Unicode and also keeps non-ASCII
letters (so the real `sanitize_name` maps `É` to `é`, which fails
`^[a-z_][a-z0-9_]*$`); the embedding is therefore faithful only on ASCII
inputs, and the sanitizer theorems carry that restriction. -/
def isWordChar (c : Nat) : Bool :=
  decide ((48 ≤ c ∧ c ≤ 57) ∨ (65 ≤ c ∧ c ≤ 90) ∨ (97 ≤ c ∧ c ≤ 122) ∨ c = 95)

/-- `str.isdigit` on a single ASCII character. -/
def isDigitChar (c : Nat) : Bool := decide (48 ≤ c ∧ c ≤ 57)

/-- `str.lower` on a single ASCII character (non-ASCII case mapping is
outside the embedding's ASCII scope). -/
def lowerChar (c : Nat) : Nat := if 65 ≤ c ∧ c ≤ 90 then c + 32 else c

/-- Whether every code point of the string is ASCII — the domain on which
the character classes above agree with Python's Unicode-default ones. -/
def isAsciiStr (s : Str) : Bool := s.all (fun c => decide (c < 128))

/-- Remove the trailing run of characters satisfying `p`
(the right half of Python's `str.strip`). -/
def dropTrail (p : Nat → Bool) : Str → Str
  | [] => []
  | c :: rest =>
    match dropTrail p rest with
    | [] => if p c then [] else [c]
    | r => c :: r

/-- Python `str.strip(chars)`: remove the leading and trailing runs of
characters satisfying `p`. -/
def stripBoth (p : Nat → Bool) (s : Str) : Str := dropTrail p (s.dropWhile p)

/-- Python `str.strip()` (whitespace on both ends). -/
def pyStrip (s : Str) : Str := stripBoth isPySpace s

/-- `re.sub(r'[^\w]', '_', s)`: replace every non-word character by `_`. -/
def subNonWord (s : Str) : Str := s.map (fun c => if isWordChar c then c else 95)

/-- `re.sub(r'_+', '_', s)`: collapse every run of consecutive underscores
into a single underscore. -/
def collapse : Str → Str
  | [] => []
  | [c] => [c]
  | a :: b :: rest => if a = 95 ∧ b = 95 then collapse (b :: rest) else a :: collapse (b :: rest)

/-- Underscore test, the `p` of `str.strip('_')`. -/
def isUnd (c : Nat) : Bool := decide (c = 95)

/-- Python `str.strip('_')`. -/
def stripUnd (s : Str) : Str := stripBoth isUnd s

/-- `name[0].isdigit()` guarded by nonemptiness (`name and name[0].isdigit()`
shape of line 116 of the source). -/
def startsWithDigit : Str → Bool
  | [] => false
  | c :: _ => isDigitChar c

/-- The code points of `col_`, the fallback that line 117 prepends. -/
def colFallback : Str := [99, 111, 108, 95]

/-- The intermediate identifier of `sanitize_name` before the `col_`
fallback: strip whitespace, substitute non-word characters, collapse
underscore runs, strip underscores (source lines 114-115). -/
def sanPre (name : Str) : Str := stripUnd (collapse (subNonWord (pyStrip name)))

/-- `sanitize_name` (source lines 112-118): the intermediate form, the
`col_` fallback when it is empty or starts with a digit, then lower-case. -/
def sanitize_name (name : Str) : Str :=
  (if (sanPre name).isEmpty || startsWithDigit (sanPre name) then
    colFallback ++ sanPre name
  else
    sanPre name).map lowerChar

/-- A cell of a loaded sheet, as the runtime value `iterrows`/column access
hands to the core.  The code observes a cell only through `pd.isna(val)`,
`astype(str)` / `str(val)`, and `isinstance(val, (int, float))`, so the
constructors record exactly those distinctions:

* the four distinct missing values `pd.isna` recognises, each with its own
  `astype(str)` text: `na` (a float `NaN` hole, text `nan`), `none` (a
  Python `None` object, text `None`), `naT` (a pandas `NaT`, text `NaT`),
  `pdNA` (a pandas `NA`, text `<NA>`);
* `int` (a native Python `int`), `bool` (a native Python `bool`, an `int`
  subclass) and `float` (a value that is an instance of Python `float`:
  a native float or a numpy `float64`, which subclasses `float`) — the
  values `isinstance(val, (int, float))` accepts;
* `npint` (a numpy integer scalar such as `int64`) and `npbool` (a numpy
  `bool_`), which subclass neither `int` nor `float` and fail that test;
* `str` and `time` (a timestamp), which also fail it.

Which runtime class a given frame produces (native objects from
object-dtype rows, numpy scalars from uniform numeric or bool rows after
the `iterrows` row upcast) is decided outside the core; the claims
quantify over tables of any such values. -/
inductive Cell
  | na : Cell
  | none : Cell
  | naT : Cell
  | pdNA : Cell
  | str (s : Str) : Cell
  | int (n : Int) : Cell
  | float (r : Str) : Cell
  | bool (b : Bool) : Cell
  | npint (n : Int) : Cell
  | npbool (b : Bool) : Cell
  | time (r : Str) : Cell
deriving DecidableEq

/-- `pd.isna(val)`: true for `NaN`, `None`, `NaT` and `pd.NA`. -/
def Cell.isNa : Cell → Bool
  | Cell.na => true
  | Cell.none => true
  | Cell.naT => true
  | Cell.pdNA => true
  | _ => false

/-- `isinstance(val, (int, float))`: true for a native `int`, for a native
`bool` (a subclass of `int`), and for any instance of `float` (native
floats and numpy `float64`, which subclasses `float`); false for numpy
integer scalars and numpy `bool_` (which subclass neither), and for
strings, timestamps and missing values. -/
def isNumericPy : Cell → Bool
  | Cell.int _ => true
  | Cell.float _ => true
  | Cell.bool _ => true
  | _ => false

/-- The text `str(val)` (equivalently, the entry of `astype(str)`) produces
for a cell: `nan` for a float `NaN` hole, `None` for a `None` object,
`NaT` for a pandas `NaT`, `<NA>` for a pandas `NA`; numeric, boolean and
timestamp cells print their usual text. -/
def cellStr : Cell → Str
  | Cell.na => pyString ("nan")
  | Cell.none => pyString ("None")
  | Cell.naT => pyString ("NaT")
  | Cell.pdNA => pyString ("<NA>")
  | Cell.str s => s
  | Cell.int n => pyString (toString n)
  | Cell.float r => r
  | Cell.bool b => if b then pyString ("True") else pyString ("False")
  | Cell.npint n => pyString (toString n)
  | Cell.npbool b => if b then pyString ("True") else pyString ("False")
  | Cell.time r => r

/-- A loaded sheet: column names, the pandas dtype string of each column,
and the rows. -/
structure Table where
  cols : List Str
  dtypes : List Str
  rows : List (List Cell)
deriving DecidableEq

/-- The null-like tokens of source lines 98-103, lower-cased: they are
matched case-insensitively (`(?i)^...$`). -/
def nullTokens : List Str :=
  [pyString ("na"), pyString ("null"), pyString ("not available"),
   pyString ("nan"), pyString ("none"), pyString ("ns")]

/-- Whether an already-stripped string is replaced by `pd.NA` on source
lines 97-105: a case-insensitive match of one of the six tokens, or the
empty string (the regex `^\s*$` applied after `.str.strip()`). -/
def isNullLike (s : Str) : Bool := decide (s.map lowerChar ∈ nullTokens) || s.isEmpty

/-- Line 97 of the source applied to one cell of a selected column:
`astype(str)`, `.str.strip()`, then token replacement — the `replace` dict
writes `pd.NA` into matching cells. -/
def normCell (c : Cell) : Cell :=
  if isNullLike (pyStrip (cellStr c)) then Cell.pdNA else Cell.str (pyStrip (cellStr c))

/-- The per-row effect of the normalization loop (source lines 93-105):
cells of columns whose name is selected are normalized, other cells pass
through.  The selection acts as a set (the UI multiselect yields distinct
names), and names absent from the table are ignored. -/
def cleanRow (cols sel : List Str) (row : List Cell) : List Cell :=
  List.zipWith (fun name c => if name ∈ sel then normCell c else c) cols row

/-- Whether `dropna(subset=[col for col in sel if col in columns])`
(source line 108) drops this row: some present selected column holds the
missing marker. -/
def rowHasNaIn (cols sel : List Str) (row : List Cell) : Bool :=
  (cols.zip row).any (fun p => decide (p.1 ∈ sel) && Cell.isNa p.2)

/-- `clean_data` (source lines 86-110).  With an empty selection the
`if selected_cols:` guard skips both normalization and `dropna`, and the
input comes back unchanged.  `astype(str)` turns a selected present
column's dtype into `object`. -/
def clean_data (t : Table) (sel : List Str) : Table :=
  if sel.isEmpty then t
  else
    { cols := t.cols,
      dtypes := List.zipWith (fun name d => if name ∈ sel then pyString ("object") else d)
        t.cols t.dtypes,
      rows := (t.rows.map (cleanRow t.cols sel)).filter
        (fun r => !rowHasNaIn t.cols sel r) }

/-- Substring test `pat in s` used by `map_dtype_to_sql` on dtype strings. -/
def startsWithL : Str → Str → Bool
  | [], _ => true
  | _ :: _, [] => false
  | a :: as, b :: bs => a == b && startsWithL as bs

/-- Python's `in` on strings: `hasSubstr pat s` iff `pat` occurs
contiguously in `s`. -/
def hasSubstr (pat s : Str) : Bool :=
  match s with
  | [] => startsWithL pat []
  | _ :: rest => startsWithL pat s || hasSubstr pat rest

/-- `map_dtype_to_sql` (source lines 120-132): substring dispatch on the
dtype string, then the dialect-specific keyword. -/
def map_dtype_to_sql (dtype dialect : Str) : Str :=
  if hasSubstr (pyString ("int")) dtype then
    (if dialect ≠ pyString ("postgresql") then pyString ("INT") else pyString ("INTEGER"))
  else if hasSubstr (pyString ("float")) dtype then
    (if dialect = pyString ("mysql") then pyString ("DOUBLE")
     else if dialect = pyString ("sqlite") then pyString ("REAL")
     else pyString ("DOUBLE PRECISION"))
  else if hasSubstr (pyString ("bool")) dtype then pyString ("BOOLEAN")
  else if hasSubstr (pyString ("datetime")) dtype then
    (if dialect ≠ pyString ("postgresql") then pyString ("DATETIME") else pyString ("TIMESTAMP"))
  else
    (if dialect = pyString ("mysql")  then pyString ("VARCHAR(255)") else pyString ("TEXT"))

/-- `str(val).replace("'", "''")` of source line 162: double every single
quote (code point 39). -/
def escapeQuotes (s : Str) : Str := s.flatMap (fun c => if c = 39 then [39, 39] else [c])

/-- The value text emitted for one cell (source lines 156-163): `NULL` for
the missing marker, bare `str(val)` for `isinstance(val, (int, float))`,
and a single-quoted escaped string otherwise. -/
def sqlValue (c : Cell) : Str :=
  if Cell.isNa c then pyString ("NULL")
  else if isNumericPy c then cellStr c
  else [39] ++ escapeQuotes (cellStr c) ++ [39]

/-- `sep.join(parts)`. -/
def joinStr (sep : Str) : List Str → Str
  | [] => []
  | [x] => x
  | x :: y :: rest => x ++ sep ++ joinStr sep (y :: rest)

/-- One `INSERT INTO` statement (source line 165). -/
def insertStatement (tname colNames : Str) (row : List Cell) : Str :=
  pyString ("INSERT INTO ") ++ tname ++ pyString (" (") ++ colNames ++
    pyString (") VALUES (") ++ joinStr (pyString (", ")) (row.map sqlValue) ++ pyString (");")

/-- `generate_sql` (source lines 134-167): the `CREATE TABLE` statement and
the newline-joined `INSERT` statements. -/
def generate_sql (t : Table) (tableName dialect : Str) : Str × Str :=
  (pyString ("CREATE TABLE IF NOT EXISTS ") ++ sanitize_name tableName ++ pyString (" (\n") ++
     joinStr (pyString (",\n"))
       (List.zipWith
         (fun c d => pyString ("    ") ++ sanitize_name c ++ [32] ++ map_dtype_to_sql d dialect)
         t.cols t.dtypes) ++
     pyString ("\n);\n"),
   joinStr [10]
     (t.rows.map
       (insertStatement (sanitize_name tableName)
         (joinStr (pyString (", ")) (t.cols.map sanitize_name)))))

/-- The five semantic column types of the specification's data model. -/
inductive SemType
  | integer | floating | boolean | timestamp | other
deriving DecidableEq

/-- The closed dialect enumeration; `dialectA`/`dialectB`/`dialectC` of the
specification stand for mysql/postgresql/sqlite, the three option strings
the UI offers (source line 193). -/
inductive Dialect
  | mysql | postgresql | sqlite
deriving DecidableEq

/-- The dialect selector string the UI hands to the core. -/
def dialectStr : Dialect → Str
  | Dialect.mysql => pyString ("mysql")
  | Dialect.postgresql => pyString ("postgresql")
  | Dialect.sqlite => pyString ("sqlite")

/-- The pandas dtype string a column of each semantic type carries
(`int64`, `float64`, `bool`, `datetime64[ns]`, `object`). -/
def semDtype : SemType → Str
  | SemType.integer => pyString ("int64")
  | SemType.floating => pyString ("float64")
  | SemType.boolean => pyString ("bool")
  | SemType.timestamp => pyString ("datetime64[ns]")
  | SemType.other => pyString ("object")

/-- The fixed lookup table of specification section 4.3, written from the
spec's words, to be compared with `map_dtype_to_sql`. -/
def specTypeTable : SemType → Dialect → Str
  | SemType.integer, Dialect.mysql => pyString ("INT")
  | SemType.integer, Dialect.postgresql => pyString ("INTEGER")
  | SemType.integer, Dialect.sqlite => pyString ("INT")
  | SemType.floating, Dialect.mysql => pyString ("DOUBLE")
  | SemType.floating, Dialect.postgresql => pyString ("DOUBLE PRECISION")
  | SemType.floating, Dialect.sqlite => pyString ("REAL")
  | SemType.boolean, _ => pyString ("BOOLEAN")
  | SemType.timestamp, Dialect.mysql => pyString ("DATETIME")
  | SemType.timestamp, Dialect.postgresql => pyString ("TIMESTAMP")
  | SemType.timestamp, Dialect.sqlite => pyString ("DATETIME")
  | SemType.other, Dialect.mysql => pyString ("VARCHAR(255)")
  | SemType.other, Dialect.postgresql => pyString ("TEXT")
  | SemType.other, Dialect.sqlite => pyString ("TEXT")

/-- The per-cell INSERT value emission as claim C2, amended, words it:
every missing value emits the literal `NULL`; a cell whose runtime value
is a Python `int`, a Python `bool`, or an instance of `float` (native or
numpy `float64`) emits its textual representation unquoted; every other
value — numpy integer and numpy `bool_` scalars, strings, timestamps —
is single-quoted after doubling each single quote.  Written from the
amended claim's words, to be compared with `sqlValue`. -/
def specInsertValue : Cell → Str
  | Cell.na => pyString ("NULL")
  | Cell.none => pyString ("NULL")
  | Cell.naT => pyString ("NULL")
  | Cell.pdNA => pyString ("NULL")
  | Cell.int n => pyString (toString n)
  | Cell.float r => r
  | Cell.bool b => if b then pyString ("True") else pyString ("False")
  | Cell.npint n =>
    [39] ++ (pyString (toString n)).flatMap (fun c => if c = 39 then [39, 39] else [c]) ++ [39]
  | Cell.npbool b =>
    [39] ++ (if b then pyString ("True") else pyString ("False")).flatMap
      (fun c => if c = 39 then [39, 39] else [c]) ++ [39]
  | Cell.str s => [39] ++ s.flatMap (fun c => if c = 39 then [39, 39] else [c]) ++ [39]
  | Cell.time r => [39] ++ r.flatMap (fun c => if c = 39 then [39, 39] else [c]) ++ [39]

/-- Replace each doubled single quote by a single quote, scanning left to
right without overlap (Python `s.replace("''", "'")`): the un-escaping of
claim C7. -/
def unescapeQuotes : Str → Str
  | [] => []
  | [c] => [c]
  | a :: b :: rest =>
    if a = 39 ∧ b = 39 then 39 :: unescapeQuotes rest
    else a :: unescapeQuotes (b :: rest)

/-- Whether the first character satisfies `p`. -/
def headSat (p : Nat → Bool) : Str → Bool
  | [] => false
  | c :: _ => p c

/-- Whether the last character satisfies `p`. -/
def lastSat (p : Nat → Bool) : Str → Bool
  | [] => false
  | [c] => p c
  | _ :: c :: rest => lastSat p (c :: rest)

/-- Lower-case word characters `[a-z0-9_]`, the character class of the
tail of the identifier regex. -/
def isLowerWordChar (c : Nat) : Bool :=
  decide ((48 ≤ c ∧ c ≤ 57) ∨ (97 ≤ c ∧ c ≤ 122) ∨ c = 95)

/-- The identifier regex of the claim, `^[a-z_][a-z0-9_]*$`. -/
def matchesIdent : Str → Bool
  | [] => false
  | c :: rest => decide ((97 ≤ c ∧ c ≤ 122) ∨ c = 95) && rest.all isLowerWordChar

/-- No two adjacent underscores. -/
def noDD : Str → Bool
  | [] => true
  | [_] => true
  | a :: b :: rest => (!decide (a = 95 ∧ b = 95)) && noDD (b :: rest)

/-- C5: cleaning with an empty selection set is the identity: the
`if selected_cols:` guard makes `clean_data` return the table unchanged,
with no cell normalization and no row dropping. -/
theorem clean_empty_selection (t : Table) : clean_data t [] = t := rfl

/-- Counterexample to C2 as stated: a numeric cell does not always emit
its textual representation unquoted.  A uniform int64 frame hands numpy
`int64` scalars through `iterrows`; those are not instances of Python
`int` or `float`, so `isinstance(val, (int, float))` fails and the program
emits the number single-quoted (`'30'`). -/
theorem sql_numpy_int_quoted_cex :
    (generate_sql
      (Table.mk [pyString ("n")] [pyString ("int64")] [[Cell.npint 30]])
      (pyString ("t")) (pyString ("mysql"))).2 =
      pyString ("INSERT INTO t (n) VALUES ('30');") ∧
    sqlValue (Cell.npint 30) ≠ cellStr (Cell.npint 30) := by decide

/-- C2 as amended: `generate_sql` emits one INSERT statement per row, in
row order, joined by newlines; every missing value emits the literal
`NULL`; a cell whose runtime value is a Python `int`, a Python `bool`, or
an instance of `float` (native or numpy `float64`) emits its textual
representation unquoted; every other cell — numpy integer and numpy
`bool_` scalars included — is single-quoted with internal single quotes
doubled (`specInsertValue` states this per-cell rule in the amended
claim's words). -/
theorem generate_sql_insert_spec (t : Table) (tname dialect : Str) :
    (generate_sql t tname dialect).2 =
    joinStr [10]
      (t.rows.map (fun row =>
        pyString ("INSERT INTO ") ++ sanitize_name tname ++ pyString (" (") ++
        joinStr (pyString (", ")) (t.cols.map sanitize_name) ++ pyString (") VALUES (") ++
        joinStr (pyString (", ")) (row.map specInsertValue) ++ pyString (");"))) := by
  have h : ∀ row : List Cell, List.map sqlValue row = List.map specInsertValue row :=
    fun row => List.map_congr_left (fun c _ => by cases c <;> rfl)
  show joinStr [10]
      (t.rows.map
        (insertStatement (sanitize_name tname)
          (joinStr (pyString (", ")) (t.cols.map sanitize_name)))) = _
  apply congrArg
  apply List.map_congr_left
  intro row _
  unfold insertStatement
  rw [h]

/-- Counterexample to C9 as stated: not every boolean cell takes the
numeric branch.  A uniform bool-dtype column reaches the emission as numpy
`bool_` through `iterrows`, which subclasses neither `bool` nor `int`, so
`isinstance(val, (int, float))` fails and the program emits the quoted
string `'True'`. -/
theorem bool_numeric_branch_cex :
    isNumericPy (Cell.npbool true) = false ∧
    sqlValue (Cell.npbool true) = pyString ("'True'") ∧
    sqlValue (Cell.npbool true) ≠ pyString ("True") ∧
    (generate_sql
      (Table.mk [pyString ("flag")] [pyString ("bool")] [[Cell.npbool true]])
      (pyString ("t")) (pyString ("mysql"))).2 =
      pyString ("INSERT INTO t (flag) VALUES ('True');") := by decide

/-- C9 as amended: a native Python `bool` cell takes the numeric branch of
the INSERT value emission (Python's `bool` is an integer subtype) and is
emitted as the unquoted text `True`/`False`; a numpy `bool_` cell, as a
uniform bool-dtype row supplies, subclasses neither `bool` nor `int`,
fails the `isinstance` test, and is emitted single-quoted. -/
theorem bool_numeric_branch (b : Bool) :
    isNumericPy (Cell.bool b) = true ∧
    sqlValue (Cell.bool b) = (if b then pyString ("True") else pyString ("False")) ∧
    sqlValue (Cell.bool b) ≠ [39] ++ escapeQuotes (cellStr (Cell.bool b)) ++ [39] ∧
    isNumericPy (Cell.npbool b) = false ∧
    sqlValue (Cell.npbool b) = [39] ++ escapeQuotes (cellStr (Cell.npbool b)) ++ [39] := by
  cases b <;> exact ⟨rfl, rfl, by decide, rfl, rfl⟩

/-- C6: `map_dtype_to_sql` is pure and total, agrees with the fixed lookup
table of specification section 4.3 on the five semantic types and three
dialects, and sends every unrecognized dtype string (one without the
`int`/`float`/`bool`/`datetime` substrings) to the text/other row. -/
theorem map_dtype_table :
    (∀ st dl, map_dtype_to_sql (semDtype st) (dialectStr dl) = specTypeTable st dl) ∧
    (∀ s : Str, hasSubstr (pyString ("int")) s = false →
      hasSubstr (pyString ("float")) s = false →
      hasSubstr (pyString ("bool")) s = false →
      hasSubstr (pyString ("datetime")) s = false →
      ∀ dl, map_dtype_to_sql s (dialectStr dl) = specTypeTable SemType.other dl) := by
  constructor
  · intro st dl
    cases st <;> cases dl <;> decide
  · intro s h1 h2 h3 h4 dl
    simp only [map_dtype_to_sql, h1, h2, h3, h4]
    cases dl <;> decide

theorem headSat_dropWhile (p : Nat → Bool) : ∀ s : Str, headSat p (s.dropWhile p) = false := by
  intro s
  induction s with
  | nil => rfl
  | cons c rest ih =>
    rw [List.dropWhile_cons]
    by_cases h : p c = true
    · simpa [h] using ih
    · simp [h, headSat]

theorem dropWhile_eq_self (p : Nat → Bool) {s : Str} (h : headSat p s = false) :
    s.dropWhile p = s := by
  cases s with
  | nil => rfl
  | cons c rest => rw [List.dropWhile_cons, if_neg]; simp [headSat] at h; simp [h]

theorem dropTrail_cons (p : Nat → Bool) (c : Nat) (rest : Str) :
    dropTrail p (c :: rest) =
      (match dropTrail p rest with
        | [] => if p c then [] else [c]
        | r => c :: r) := rfl

theorem dropTrail_shape (p : Nat → Bool) (c : Nat) (rest : Str) :
    dropTrail p (c :: rest) = [] ∨ ∃ t, dropTrail p (c :: rest) = c :: t := by
  rw [dropTrail_cons]
  cases h : dropTrail p rest with
  | nil =>
    by_cases hc : p c = true
    · left; simp [hc]
    · right; exact ⟨[], by simp [hc]⟩
  | cons d t => right; exact ⟨d :: t, rfl⟩

theorem lastSat_dropTrail (p : Nat → Bool) : ∀ s : Str, lastSat p (dropTrail p s) = false := by
  intro s
  induction s with
  | nil => rfl
  | cons c rest ih =>
    show lastSat p (match dropTrail p rest with
      | [] => if p c then [] else [c]
      | r => c :: r) = false
    cases h : dropTrail p rest with
    | nil =>
      by_cases hc : p c = true
      · simp [hc, lastSat]
      · simp [hc, lastSat, Bool.eq_false_iff.2 hc]
    | cons d t =>
      rw [h] at ih
      exact ih

theorem dropTrail_eq_self (p : Nat → Bool) : ∀ s : Str, lastSat p s = false → dropTrail p s = s := by
  intro s
  induction s with
  | nil => intro _; rfl
  | cons c rest ih =>
    intro h
    cases rest with
    | nil =>
      simp only [lastSat] at h
      show (match dropTrail p [] with
        | [] => if p c then [] else [c]
        | r => c :: r) = [c]
      simp [dropTrail, h]
    | cons d t =>
      have hrest : lastSat p (d :: t) = false := h
      show (match dropTrail p (d :: t) with
        | [] => if p c then [] else [c]
        | r => c :: r) = c :: d :: t
      rw [ih hrest]

theorem headSat_dropTrail (p : Nat → Bool) {s : Str} (h : headSat p s = false) :
    headSat p (dropTrail p s) = false := by
  cases s with
  | nil => rfl
  | cons c rest =>
    rcases dropTrail_shape p c rest with h0 | ⟨t, ht⟩
    · rw [h0]; rfl
    · rw [ht]; exact h

theorem stripBoth_idem (p : Nat → Bool) (s : Str) :
    stripBoth p (stripBoth p s) = stripBoth p s := by
  have hh : headSat p (stripBoth p s) = false :=
    headSat_dropTrail p (headSat_dropWhile p s)
  have hl : lastSat p (stripBoth p s) = false := lastSat_dropTrail p _
  show dropTrail p ((stripBoth p s).dropWhile p) = stripBoth p s
  rw [dropWhile_eq_self p hh]
  exact dropTrail_eq_self p _ hl

theorem pyStrip_idem (s : Str) : pyStrip (pyStrip s) = pyStrip s := stripBoth_idem isPySpace s

theorem zipWith_get?_some {α β γ : Type} (f : α → β → γ) :
    ∀ (l1 : List α) (l2 : List β) (i : Nat) (z : γ),
      (List.zipWith f l1 l2).get? i = some z →
      ∃ a b, l1.get? i = some a ∧ l2.get? i = some b ∧ z = f a b := by
  intro l1
  induction l1 with
  | nil => intro l2 i z h; simp at h
  | cons a as ih =>
    intro l2 i z h
    cases l2 with
    | nil => simp at h
    | cons b bs =>
      cases i with
      | zero =>
        refine ⟨a, b, rfl, rfl, ?_⟩
        simpa using (Option.some.inj h).symm
      | succ n =>
        simpa using ih bs n z (by simpa using h)

theorem zipWith_get?_intro {α β γ : Type} (f : α → β → γ) :
    ∀ (l1 : List α) (l2 : List β) (i : Nat) (a : α) (b : β),
      l1.get? i = some a → l2.get? i = some b →
      (List.zipWith f l1 l2).get? i = some (f a b) := by
  intro l1
  induction l1 with
  | nil => intro l2 i a b h; simp at h
  | cons x xs ih =>
    intro l2 i a b h1 h2
    cases l2 with
    | nil => simp at h2
    | cons y ys =>
      cases i with
      | zero =>
        have ha : x = a := by simpa using h1
        have hb : y = b := by simpa using h2
        simp [ha, hb]
      | succ n =>
        simpa using ih ys n a b (by simpa using h1) (by simpa using h2)

theorem any_of_get? {α : Type} {l : List α} {i : Nat} {x : α} {p : α → Bool}
    (h : l.get? i = some x) (hp : p x = true) : l.any p = true :=
  List.any_eq_true.2 ⟨x, List.get?_mem h, hp⟩

theorem sel_isEmpty_false {sel : List Str} (h : sel ≠ []) : sel.isEmpty = false := by
  cases sel with
  | nil => exact absurd rfl h
  | cons a as => rfl

theorem clean_rows_eq {t : Table} {sel : List Str} (h : sel ≠ []) :
    (clean_data t sel).rows =
      (t.rows.map (cleanRow t.cols sel)).filter (fun r => !rowHasNaIn t.cols sel r) := by
  rw [clean_data, if_neg]
  simp [sel_isEmpty_false h]

/-- Every cell a surviving row holds in a present selected column is a
stripped string that is not null-like: the normalization made it so, and
`dropna` removed every row where it became the missing marker instead. -/
theorem clean_cell_shape (t : Table) (sel : List Str) (row : List Cell) (i : Nat)
    (name : Str) (cell : Cell)
    (hrow : row ∈ (clean_data t sel).rows) (hgc : t.cols.get? i = some name)
    (hmem : name ∈ sel) (hcell : row.get? i = some cell) :
    ∃ s, cell = Cell.str s ∧ pyStrip s = s ∧ isNullLike s = false := by
  have hne : sel ≠ [] := List.ne_nil_of_mem hmem
  rw [clean_rows_eq hne] at hrow
  obtain ⟨hm, hkeep⟩ := List.mem_filter.1 hrow
  obtain ⟨row0, hrow0, rfl⟩ := List.mem_map.1 hm
  rw [cleanRow] at hcell
  obtain ⟨a, b, ha, hb, hz⟩ := zipWith_get?_some _ _ _ _ _ hcell
  have han : a = name := Option.some.inj (ha.symm.trans hgc)
  subst han
  rw [if_pos hmem] at hz
  by_cases hn : isNullLike (pyStrip (cellStr b)) = true
  · exfalso
    have hcna : cell = Cell.pdNA := by rw [hz, normCell, if_pos hn]
    have hzip : ((t.cols).zip (cleanRow t.cols sel row0)).get? i = some (a, cell) :=
      zipWith_get?_intro Prod.mk _ _ _ _ _ hgc hcell
    have hany : rowHasNaIn t.cols sel (cleanRow t.cols sel row0) = true := by
      refine any_of_get? hzip ?_
      simp [hcna, Cell.isNa, hmem]
    rw [Bool.not_eq_true'] at hkeep
    rw [hany] at hkeep
    exact absurd hkeep (by decide)
  · refine ⟨pyStrip (cellStr b), ?_, pyStrip_idem (cellStr b), Bool.eq_false_iff.2 hn⟩
    rw [hz, normCell, if_neg hn]

/-- Witness for C6 at a concrete unrecognized dtype string. -/
theorem map_dtype_table_witness :
    map_dtype_to_sql (pyString ("object")) (dialectStr Dialect.mysql) =
      specTypeTable SemType.other Dialect.mysql :=
  map_dtype_table.2 (pyString ("object")) (by decide) (by decide) (by decide) (by decide)
    Dialect.mysql

/-- C3: after cleaning, no cell of a present selected column is the missing
marker, and none equals (case-insensitively, after stripping) a null-like
token or a whitespace-only/empty string — matching cells were replaced by
the marker and the rows holding a marker in a present selected column were
dropped. -/
theorem clean_selected_no_nulllike (t : Table) (sel : List Str) (row : List Cell) (i : Nat)
    (name : Str) (cell : Cell)
    (hrow : row ∈ (clean_data t sel).rows) (hgc : t.cols.get? i = some name)
    (hmem : name ∈ sel) (hcell : row.get? i = some cell) :
    cell ≠ Cell.na ∧ isNullLike (pyStrip (cellStr cell)) = false := by
  obtain ⟨s, rfl, hst, hnl⟩ := clean_cell_shape t sel row i name cell hrow hgc hmem hcell
  refine ⟨fun h => Cell.noConfusion h, ?_⟩
  show isNullLike (pyStrip s) = false
  rw [hst]
  exact hnl

/-- Witness for C3 on a concrete cleaned table. -/
theorem clean_selected_no_nulllike_witness :
    Cell.str (pyString ("30")) ≠ Cell.na ∧
    isNullLike (pyStrip (cellStr (Cell.str (pyString ("30"))))) = false :=
  clean_selected_no_nulllike
    { cols := [pyString ("age")], dtypes := [pyString ("object")],
      rows := [[Cell.str (pyString ("NA"))], [Cell.str (pyString ("30"))]] }
    [pyString ("age")] [Cell.str (pyString ("30"))] 0 (pyString ("age"))
    (Cell.str (pyString ("30"))) (by decide) (by decide) (by decide) (by decide)

/-- Counterexample to C10 as stated: a genuine missing timestamp (`NaT`)
in a present selected column is NOT dropped.  `astype(str)` renders it as
the text `NaT`, which matches no null-like token (`(?i)^nan$` is n-a-n),
so the cell is kept as the literal string `NaT` and the row survives. -/
theorem clean_keeps_naT_cex :
    Cell.isNa Cell.naT = true ∧
    pyStrip (cellStr Cell.naT) = pyString ("NaT") ∧
    isNullLike (pyString ("NaT")) = false ∧
    normCell Cell.naT = Cell.str (pyString ("NaT")) ∧
    (clean_data (Table.mk [pyString ("when")] [pyString ("datetime64[ns]")] [[Cell.naT]])
        [pyString ("when")]).rows = [[Cell.str (pyString ("NaT"))]] ∧
    (clean_data (Table.mk [pyString ("when")] [pyString ("datetime64[ns]")] [[Cell.naT]])
        [pyString ("when")]).rows.length =
      (Table.mk [pyString ("when")] [pyString ("datetime64[ns]")] [[Cell.naT]]).rows.length := by
  decide

/-- C10 as amended: a genuine missing value in a present selected column
drops the row exactly when its stringification (after stripping) matches a
null-like token.  A float `NaN` stringifies to `nan` and a `None` object
to `None`, which match, are normalized to the marker, and `dropna` removes
the row; `NaT` stringifies to `NaT` and `pd.NA` to `<NA>`, which match no
token, so those rows are kept with the cell turned into its literal text. -/
theorem clean_drops_true_missing :
    (∀ (t : Table) (sel : List Str) (row : List Cell) (i : Nat) (name : Str) (cell : Cell),
      sel ≠ [] → row ∈ t.rows → t.cols.get? i = some name → name ∈ sel →
      row.get? i = some cell → Cell.isNa cell = true →
      isNullLike (pyStrip (cellStr cell)) = true →
      normCell cell = Cell.pdNA ∧
      rowHasNaIn t.cols sel (cleanRow t.cols sel row) = true ∧
      cleanRow t.cols sel row ∉ (clean_data t sel).rows) ∧
    isNullLike (pyStrip (cellStr Cell.na)) = true ∧
    isNullLike (pyStrip (cellStr Cell.none)) = true ∧
    normCell Cell.naT = Cell.str (pyString ("NaT")) ∧
    normCell Cell.pdNA = Cell.str (pyString ("<NA>")) := by
  refine ⟨?_, by decide, by decide, by decide, by decide⟩
  intro t sel row i name cell hne _hrow hgc hmem hcell _hna htok
  have hnorm : normCell cell = Cell.pdNA := by rw [normCell, if_pos htok]
  have hget : (cleanRow t.cols sel row).get? i = some Cell.pdNA := by
    rw [cleanRow]
    have hz := zipWith_get?_intro
      (fun name c => if name ∈ sel then normCell c else c) t.cols row i name cell hgc hcell
    simpa [hmem, hnorm] using hz
  have hany : rowHasNaIn t.cols sel (cleanRow t.cols sel row) = true := by
    refine any_of_get? (zipWith_get?_intro Prod.mk _ _ _ _ _ hgc hget) ?_
    simp [Cell.isNa, hmem]
  refine ⟨hnorm, hany, ?_⟩
  intro hin
  rw [clean_rows_eq hne] at hin
  have hkeep := (List.mem_filter.1 hin).2
  rw [Bool.not_eq_true', hany] at hkeep
  exact absurd hkeep (by decide)

/-- Witness for C10 (amended) on a concrete table with a float `NaN`
hole. -/
theorem clean_drops_true_missing_witness :
    normCell Cell.na = Cell.pdNA ∧
    rowHasNaIn
      (Table.mk [pyString ("age")] [pyString ("float64")] [[Cell.na]]).cols
      [pyString ("age")]
      (cleanRow (Table.mk [pyString ("age")] [pyString ("float64")] [[Cell.na]]).cols
        [pyString ("age")] [Cell.na]) = true ∧
    cleanRow (Table.mk [pyString ("age")] [pyString ("float64")] [[Cell.na]]).cols
        [pyString ("age")] [Cell.na] ∉
      (clean_data (Table.mk [pyString ("age")] [pyString ("float64")] [[Cell.na]])
        [pyString ("age")]).rows :=
  clean_drops_true_missing.1
    (Table.mk [pyString ("age")] [pyString ("float64")] [[Cell.na]])
    [pyString ("age")] [Cell.na] 0 (pyString ("age")) Cell.na
    (by decide) (by decide) (by decide) (by decide) (by decide) (by decide) (by decide)

theorem unescape_two_quotes (l : Str) : unescapeQuotes (39 :: 39 :: l) = 39 :: unescapeQuotes l := by
  simp [unescapeQuotes]

theorem unescape_cons_ne (c : Nat) (l : Str) (h : c ≠ 39) :
    unescapeQuotes (c :: l) = c :: unescapeQuotes l := by
  cases l with
  | nil => rfl
  | cons d t =>
    rw [unescapeQuotes, if_neg]
    intro hcd
    exact h hcd.1

theorem unescape_escape (s : Str) : unescapeQuotes (escapeQuotes s) = s := by
  induction s with
  | nil => rfl
  | cons c rest ih =>
    by_cases h : c = 39
    · subst h
      have he : escapeQuotes (39 :: rest) = 39 :: 39 :: escapeQuotes rest := by
        simp [escapeQuotes]
      rw [he, unescape_two_quotes, ih]
    · have he : escapeQuotes (c :: rest) = c :: escapeQuotes rest := by
        simp [escapeQuotes, h]
      rw [he, unescape_cons_ne c _ h, ih]

/-- Counterexample to C7 as stated: `generate_sql` also quotes string cells
that were never cleaned (here a cell of an unselected column), and for the
cell text ` a ` the un-escaped quoted content is ` a `, the original value,
not the stripped value `a`. -/
theorem insert_roundtrip_cex :
    (generate_sql
      { cols := [pyString ("c")], dtypes := [pyString ("object")],
        rows := [[Cell.str (pyString (" a "))]] }
      (pyString ("t")) (pyString ("mysql"))).2 =
      pyString ("INSERT INTO t (c) VALUES (' a ');") ∧
    unescapeQuotes (escapeQuotes (pyString (" a "))) ≠ pyStrip (pyString (" a ")) := by decide

/-- C7 as amended: un-escaping the doubled quotes always recovers exactly
the original text value of the cell; for a cell of a present selected
column of a cleaned table that value is already stripped, so there it also
equals the stripped text value. -/
theorem insert_roundtrip_amended :
    (∀ s : Str, unescapeQuotes (escapeQuotes s) = s) ∧
    (∀ (t : Table) (sel : List Str) (row : List Cell) (i : Nat) (name : Str) (s : Str),
      row ∈ (clean_data t sel).rows → t.cols.get? i = some name → name ∈ sel →
      row.get? i = some (Cell.str s) → unescapeQuotes (escapeQuotes s) = pyStrip s) := by
  refine ⟨unescape_escape, ?_⟩
  intro t sel row i name s hrow hgc hmem hcell
  obtain ⟨s2, heq, hst, _⟩ := clean_cell_shape t sel row i name (Cell.str s) hrow hgc hmem hcell
  have hs : s = s2 := by injection heq
  subst hs
  rw [unescape_escape]
  exact hst.symm

/-- Witness for C7 (amended) on a concrete cleaned table. -/
theorem insert_roundtrip_witness :
    unescapeQuotes (escapeQuotes (pyString ("x"))) = pyStrip (pyString ("x")) :=
  insert_roundtrip_amended.2
    { cols := [pyString ("c")], dtypes := [pyString ("object")],
      rows := [[Cell.str (pyString (" x "))]] }
    [pyString ("c")] [Cell.str (pyString ("x"))] 0 (pyString ("c")) (pyString ("x"))
    (by decide) (by decide) (by decide) (by decide)

theorem filter_length_eq_iff {α : Type} (p : α → Bool) :
    ∀ l : List α, ((l.filter p).length = l.length ↔ ∀ a ∈ l, p a = true) := by
  intro l
  induction l with
  | nil => simp
  | cons a l ih =>
    by_cases h : p a = true
    · simp [List.filter_cons, h, ih]
    · have hfa : p a = false := Bool.eq_false_iff.2 h
      have hle := List.length_filter_le p l
      simp only [List.filter_cons, hfa, Bool.false_eq_true, if_false, List.forall_mem_cons,
        List.length_cons, false_and, iff_false]
      omega

theorem cleanRow_keep_iff (sel : List Str) :
    ∀ (cols : List Str) (row : List Cell),
      (rowHasNaIn cols sel (cleanRow cols sel row) = false ↔
        ∀ (i : Nat) (name : Str) (cell : Cell), cols.get? i = some name →
          row.get? i = some cell → name ∈ sel →
          isNullLike (pyStrip (cellStr cell)) = false) := by
  intro cols
  induction cols with
  | nil =>
    intro row
    simp [rowHasNaIn, cleanRow]
  | cons c cs ih =>
    intro row
    cases row with
    | nil => simp [rowHasNaIn, cleanRow]
    | cons r rs =>
      have hcr : cleanRow (c :: cs) sel (r :: rs) =
        (if c ∈ sel then normCell r else r) :: cleanRow cs sel rs := rfl
      have hrh : rowHasNaIn (c :: cs) sel
          ((if c ∈ sel then normCell r else r) :: cleanRow cs sel rs) =
          ((decide (c ∈ sel) && Cell.isNa (if c ∈ sel then normCell r else r)) ||
            rowHasNaIn cs sel (cleanRow cs sel rs)) := rfl
      rw [hcr, hrh, Bool.or_eq_false_iff]
      constructor
      · rintro ⟨h0, hrest⟩ i name cell hgc hgr hmem
        cases i with
        | zero =>
          have hnc : name = c := by
            have := hgc; simp only [List.get?_cons_zero] at this
            exact (Option.some.inj this).symm
          have hcr2 : cell = r := by
            have := hgr; simp only [List.get?_cons_zero] at this
            exact (Option.some.inj this).symm
          subst hnc; subst hcr2
          rw [if_pos hmem] at h0
          simp only [decide_eq_true hmem, Bool.true_and] at h0
          by_cases hn : isNullLike (pyStrip (cellStr cell)) = true
          · rw [normCell, if_pos hn] at h0
            exact absurd h0 (by simp [Cell.isNa])
          · exact Bool.eq_false_iff.2 hn
        | succ n =>
          exact (ih rs).1 hrest n name cell (by simpa using hgc) (by simpa using hgr) hmem
      · intro h
        constructor
        · by_cases hmem : c ∈ sel
          · rw [if_pos hmem]
            have hP := h 0 c r (by simp) (by simp) hmem
            rw [normCell, if_neg (by simp [hP])]
            simp [Cell.isNa]
          · simp [hmem]
        · exact (ih rs).2 (fun i name cell hgc hgr hmem =>
            h (i + 1) name cell (by simpa using hgc) (by simpa using hgr) hmem)

/-- C4: cleaning never increases the row count, and it preserves the row
count exactly when no row held a null-like token (after stringification
and stripping; the token set of source lines 98-104, which includes the
whitespace-only/empty case) in a present selected column. -/
theorem clean_rowcount (t : Table) (sel : List Str) :
    (clean_data t sel).rows.length ≤ t.rows.length ∧
    ((clean_data t sel).rows.length = t.rows.length ↔
      ∀ row ∈ t.rows, ∀ (i : Nat) (name : Str) (cell : Cell),
        t.cols.get? i = some name → row.get? i = some cell → name ∈ sel →
        isNullLike (pyStrip (cellStr cell)) = false) := by
  cases sel with
  | nil =>
    constructor
    · exact le_refl _
    · constructor
      · intro _ row hrow i name cell hgc hgr hmem
        exact absurd hmem (List.not_mem_nil name)
      · intro _; rfl
  | cons a as =>
    rw [clean_rows_eq (by simp : (a :: as) ≠ [])]
    constructor
    · exact le_trans (List.length_filter_le _ _) (le_of_eq (List.length_map _ _))
    · rw [show t.rows.length = (t.rows.map (cleanRow t.cols (a :: as))).length from
        (List.length_map _ _).symm]
      rw [filter_length_eq_iff]
      rw [List.forall_mem_map]
      refine forall₂_congr (fun row hrow => ?_)
      rw [Bool.not_eq_true']
      exact cleanRow_keep_iff (a :: as) t.cols row

/-- Witness for C4 on a concrete table. -/
theorem clean_rowcount_witness :
    (clean_data
      { cols := [pyString ("age")], dtypes := [pyString ("object")],
        rows := [[Cell.str (pyString ("NA"))], [Cell.str (pyString ("30"))]] }
      [pyString ("age")]).rows.length ≤
    ({ cols := [pyString ("age")], dtypes := [pyString ("object")],
        rows := [[Cell.str (pyString ("NA"))], [Cell.str (pyString ("30"))]] } : Table).rows.length :=
  (clean_rowcount
    { cols := [pyString ("age")], dtypes := [pyString ("object")],
      rows := [[Cell.str (pyString ("NA"))], [Cell.str (pyString ("30"))]] }
    [pyString ("age")]).1

theorem cleanRow_get?_unselected (sel : List Str) :
    ∀ (cols : List Str) (row : List Cell) (i : Nat) (name : Str),
      cols.get? i = some name → name ∉ sel →
      (cleanRow cols sel row).get? i = row.get? i := by
  intro cols
  induction cols with
  | nil => intro row i name h; simp at h
  | cons c cs ih =>
    intro row i name hgc hnm
    cases row with
    | nil => simp [cleanRow]
    | cons r rs =>
      cases i with
      | zero =>
        have hnc : name = c := by
          have := hgc; simp only [List.get?_cons_zero] at this
          exact (Option.some.inj this).symm
        subst hnc
        show some (if name ∈ sel then normCell r else r) = some r
        rw [if_neg hnm]
      | succ n =>
        show (cleanRow cs sel rs).get? n = rs.get? n
        exact ih rs n name (by simpa using hgc) hnm

/-- C8 (frame): cleaning keeps the column list (set and order) unchanged,
and every surviving row comes from a row of the input whose cells in
unselected columns it carries unchanged. -/
theorem clean_frame (t : Table) (sel : List Str) :
    (clean_data t sel).cols = t.cols ∧
    ∀ row2 ∈ (clean_data t sel).rows, ∃ row, row ∈ t.rows ∧
      ∀ (i : Nat) (name : Str), t.cols.get? i = some name → name ∉ sel →
        row2.get? i = row.get? i := by
  cases sel with
  | nil => exact ⟨rfl, fun row2 h => ⟨row2, h, fun i name _ _ => rfl⟩⟩
  | cons a as =>
    refine ⟨rfl, ?_⟩
    intro row2 hrow
    rw [clean_rows_eq (by simp : (a :: as) ≠ [])] at hrow
    obtain ⟨hm, _⟩ := List.mem_filter.1 hrow
    obtain ⟨row, hr, rfl⟩ := List.mem_map.1 hm
    exact ⟨row, hr, fun i name hgc hnm => cleanRow_get?_unselected (a :: as) t.cols row i name hgc hnm⟩

/-- Witness for C8 on a concrete cleaned table: the surviving row keeps its
unselected cell. -/
theorem clean_frame_witness :
    ∃ row, row ∈ (Table.mk [pyString ("name"), pyString ("age")]
        [pyString ("object"), pyString ("object")]
        [[Cell.str (pyString ("Bob")), Cell.str (pyString ("30"))]]).rows ∧
      ∀ (i : Nat) (name : Str),
        (Table.mk [pyString ("name"), pyString ("age")]
          [pyString ("object"), pyString ("object")]
          [[Cell.str (pyString ("Bob")), Cell.str (pyString ("30"))]]).cols.get? i = some name →
        name ∉ [pyString ("age")] →
        (List.cons (Cell.str (pyString ("Bob"))) [Cell.str (pyString ("30"))]).get? i =
          row.get? i :=
  (clean_frame
    (Table.mk [pyString ("name"), pyString ("age")]
      [pyString ("object"), pyString ("object")]
      [[Cell.str (pyString ("Bob")), Cell.str (pyString ("30"))]])
    [pyString ("age")]).2
    [Cell.str (pyString ("Bob")), Cell.str (pyString ("30"))] (by decide)

theorem noDD_cons2 (a b : Nat) (rest : Str) :
    noDD (a :: b :: rest) = ((!decide (a = 95 ∧ b = 95)) && noDD (b :: rest)) := rfl

theorem collapse_cons2 (a b : Nat) (rest : Str) :
    collapse (a :: b :: rest) =
      (if a = 95 ∧ b = 95 then collapse (b :: rest) else a :: collapse (b :: rest)) := rfl

theorem noDD_split {a b : Nat} {rest : Str} (h : noDD (a :: b :: rest) = true) :
    (!decide (a = 95 ∧ b = 95)) = true ∧ noDD (b :: rest) = true := by
  rw [noDD_cons2, Bool.and_eq_true] at h
  exact h

theorem mem_subNonWord {s : Str} : ∀ c ∈ subNonWord s, isWordChar c = true := by
  intro c h
  obtain ⟨a, _, rfl⟩ := List.mem_map.1 h
  by_cases hw : isWordChar a = true
  · rwa [if_pos hw]
  · rw [if_neg hw]; decide

theorem collapse_cons_shape : ∀ (s : Str) (a : Nat), ∃ t, collapse (a :: s) = a :: t := by
  intro s
  induction s with
  | nil => exact fun a => ⟨[], rfl⟩
  | cons b rest ih =>
    intro a
    rw [collapse_cons2]
    by_cases h : a = 95 ∧ b = 95
    · obtain ⟨t, ht⟩ := ih b
      rw [if_pos h, ht, h.1, h.2]
      exact ⟨t, rfl⟩
    · exact ⟨collapse (b :: rest), by rw [if_neg h]⟩

theorem noDD_collapse : ∀ s : Str, noDD (collapse s) = true := by
  intro s
  induction s with
  | nil => rfl
  | cons a s ih =>
    cases s with
    | nil => rfl
    | cons b rest =>
      rw [collapse_cons2]
      by_cases h : a = 95 ∧ b = 95
      · rw [if_pos h]; exact ih
      · rw [if_neg h]
        obtain ⟨t, ht⟩ := collapse_cons_shape rest b
        rw [ht, noDD_cons2]
        rw [ht] at ih
        simp [h, ih]

theorem collapse_id_of_noDD : ∀ s : Str, noDD s = true → collapse s = s := by
  intro s
  induction s with
  | nil => intro _; rfl
  | cons a s ih =>
    cases s with
    | nil => intro _; rfl
    | cons b rest =>
      intro h
      obtain ⟨h1, h2⟩ := noDD_split h
      have h1b : decide (a = 95 ∧ b = 95) = false := by
        rw [Bool.not_eq_true'] at h1
        exact h1
      rw [collapse_cons2, if_neg (of_decide_eq_false h1b), ih h2]

theorem mem_collapse : ∀ (s : Str), ∀ c ∈ collapse s, c ∈ s := by
  intro s
  induction s with
  | nil => intro c h; simp [collapse] at h
  | cons a s ih =>
    cases s with
    | nil => intro c h; simpa [collapse] using h
    | cons b rest =>
      intro c h
      rw [collapse_cons2] at h
      by_cases h95 : a = 95 ∧ b = 95
      · rw [if_pos h95] at h
        exact List.mem_cons_of_mem a (ih c h)
      · rw [if_neg h95] at h
        rcases List.mem_cons.1 h with rfl | h2
        · exact List.mem_cons_self c (b :: rest)
        · exact List.mem_cons_of_mem a (ih c h2)

theorem noDD_cons_of {a : Nat} {s : Str} (h : noDD (a :: s) = true) : noDD s = true := by
  cases s with
  | nil => rfl
  | cons b rest => exact (noDD_split h).2

theorem noDD_dropWhile (p : Nat → Bool) : ∀ s : Str, noDD s = true → noDD (s.dropWhile p) = true := by
  intro s
  induction s with
  | nil => intro _; rfl
  | cons a s ih =>
    intro h
    rw [List.dropWhile_cons]
    by_cases hp : p a = true
    · simp only [hp, if_true]
      exact ih (noDD_cons_of h)
    · simp only [hp]
      simpa using h

theorem noDD_dropTrail (p : Nat → Bool) : ∀ s : Str, noDD s = true → noDD (dropTrail p s) = true := by
  intro s
  induction s with
  | nil => intro _; rfl
  | cons c rest ih =>
    intro h
    rw [dropTrail_cons]
    cases hd : dropTrail p rest with
    | nil =>
      by_cases hp : p c = true
      · rw [if_pos hp]; rfl
      · rw [if_neg hp]; rfl
    | cons d t =>
      cases rest with
      | nil => exact absurd hd (by simp [dropTrail])
      | cons e rest2 =>
        rcases dropTrail_shape p e rest2 with h0 | ⟨t2, ht2⟩
        · rw [h0] at hd; exact absurd hd (by simp)
        · have hed : e = d := by
            rw [ht2] at hd
            injection hd with h1 _
          rw [noDD_cons2, Bool.and_eq_true]
          constructor
          · rw [← hed]
            exact (noDD_split h).1
          · rw [← hd]
            exact ih (noDD_cons_of h)

theorem mem_dropTrail (p : Nat → Bool) : ∀ (s : Str), ∀ x ∈ dropTrail p s, x ∈ s := by
  intro s
  induction s with
  | nil => intro x h; simp [dropTrail] at h
  | cons c rest ih =>
    intro x h
    rw [dropTrail_cons] at h
    cases hd : dropTrail p rest with
    | nil =>
      rw [hd] at h
      by_cases hp : p c = true
      · simp [hp] at h
      · simp [hp] at h
        simp [h]
    | cons d t =>
      rw [hd] at h
      rcases List.mem_cons.1 h with rfl | h2
      · exact List.mem_cons_self x rest
      · exact List.mem_cons_of_mem c (ih x (hd ▸ h2))

theorem mem_dropWhile (p : Nat → Bool) : ∀ (s : Str), ∀ x ∈ s.dropWhile p, x ∈ s := by
  intro s
  induction s with
  | nil => intro x h; simp at h
  | cons c rest ih =>
    intro x h
    rw [List.dropWhile_cons] at h
    by_cases hp : p c = true
    · simp only [hp, if_true] at h
      exact List.mem_cons_of_mem c (ih x h)
    · simp only [hp] at h
      simpa using h

theorem lowerChar_word {c : Nat} (h : isWordChar c = true) :
    isLowerWordChar (lowerChar c) = true := by
  simp only [isWordChar, decide_eq_true_eq] at h
  simp only [isLowerWordChar, lowerChar, decide_eq_true_eq]
  by_cases h2 : 65 ≤ c ∧ c ≤ 90
  · rw [if_pos h2]; omega
  · rw [if_neg h2]; omega

theorem lowerChar_eq_95_iff {c : Nat} : lowerChar c = 95 ↔ c = 95 := by
  unfold lowerChar
  by_cases h2 : 65 ≤ c ∧ c ≤ 90
  · rw [if_pos h2]
    constructor <;> intro h <;> omega
  · rw [if_neg h2]

theorem lowerChar_id_of_lower {c : Nat} (h : isLowerWordChar c = true) : lowerChar c = c := by
  simp only [isLowerWordChar, decide_eq_true_eq] at h
  unfold lowerChar
  rw [if_neg]
  omega

theorem map_lower_id {s : Str} (h : ∀ c ∈ s, isLowerWordChar c = true) :
    s.map lowerChar = s := by
  have h2 : s.map lowerChar = s.map id :=
    List.map_congr_left (fun c hc => lowerChar_id_of_lower (h c hc))
  rw [h2, List.map_id]

theorem noDD_map_lower : ∀ s : Str, noDD s = true → noDD (s.map lowerChar) = true := by
  intro s
  induction s with
  | nil => intro _; rfl
  | cons a s ih =>
    cases s with
    | nil => intro _; rfl
    | cons b rest =>
      intro h
      obtain ⟨h1, h2⟩ := noDD_split h
      show noDD (lowerChar a :: lowerChar b :: List.map lowerChar rest) = true
      rw [noDD_cons2, Bool.and_eq_true]
      constructor
      · simp only [Bool.not_eq_true', decide_eq_false_iff_not] at h1 ⊢
        simp only [lowerChar_eq_95_iff]
        exact h1
      · exact ih h2

theorem lastSat_map_lower : ∀ s : Str, lastSat isUnd (s.map lowerChar) = lastSat isUnd s := by
  intro s
  induction s with
  | nil => rfl
  | cons a s ih =>
    cases s with
    | nil =>
      show isUnd (lowerChar a) = isUnd a
      simp [isUnd, lowerChar_eq_95_iff]
    | cons b rest =>
      show lastSat isUnd (lowerChar b :: List.map lowerChar rest) = lastSat isUnd (b :: rest)
      exact ih

theorem lastSat_append (p : Nat → Bool) :
    ∀ (s u : Str), u ≠ [] → lastSat p (s ++ u) = lastSat p u := by
  intro s
  induction s with
  | nil => intro u _; rfl
  | cons a s ih =>
    intro u hu
    have hne : s ++ u ≠ [] := by
      intro hc
      exact hu (List.append_eq_nil.1 hc).2
    show lastSat p (a :: (s ++ u)) = lastSat p u
    cases hst : s ++ u with
    | nil => exact absurd hst hne
    | cons x xs =>
      show lastSat p (x :: xs) = lastSat p u
      rw [← hst]
      exact ih u hu

theorem all_not_lastSat {p : Nat → Bool} : ∀ {s : Str}, (∀ c ∈ s, p c = false) →
    lastSat p s = false := by
  intro s
  induction s with
  | nil => intro _; rfl
  | cons a s ih =>
    intro h
    cases s with
    | nil => exact h a (List.mem_cons_self a [])
    | cons b rest =>
      show lastSat p (b :: rest) = false
      exact ih (fun c hc => h c (List.mem_cons_of_mem a hc))

theorem headSat_false_of_all {p : Nat → Bool} {s : Str} (h : ∀ c ∈ s, p c = false) :
    headSat p s = false := by
  cases s with
  | nil => rfl
  | cons a s => exact h a (List.mem_cons_self a s)

theorem stripBoth_eq_self {p : Nat → Bool} {s : Str} (hh : headSat p s = false)
    (hl : lastSat p s = false) : stripBoth p s = s := by
  rw [stripBoth, dropWhile_eq_self p hh]
  exact dropTrail_eq_self p s hl

theorem sanPre_word (x : Str) : ∀ c ∈ sanPre x, isWordChar c = true := by
  intro c hc
  rw [sanPre, stripUnd, stripBoth] at hc
  exact mem_subNonWord c (mem_collapse _ c (mem_dropWhile isUnd _ c (mem_dropTrail isUnd _ c hc)))

theorem sanPre_noDD (x : Str) : noDD (sanPre x) = true := by
  rw [sanPre, stripUnd, stripBoth]
  exact noDD_dropTrail isUnd _ (noDD_dropWhile isUnd _ (noDD_collapse _))

theorem sanPre_headSat (x : Str) : headSat isUnd (sanPre x) = false := by
  rw [sanPre, stripUnd, stripBoth]
  exact headSat_dropTrail isUnd (headSat_dropWhile isUnd _)

theorem sanPre_lastSat (x : Str) : lastSat isUnd (sanPre x) = false := by
  rw [sanPre, stripUnd, stripBoth]
  exact lastSat_dropTrail isUnd _

/-- A nonempty lower-case word string with no double underscore, no
underscore or digit at the head and no underscore at the end is a fixed
point of `sanitize_name`: every stage of the pipeline leaves it alone. -/
theorem sanitize_fixed (y : Str) (hall : ∀ c ∈ y, isLowerWordChar c = true)
    (hnodd : noDD y = true) (hhead : headSat isUnd y = false)
    (hlast : lastSat isUnd y = false) (hdig : startsWithDigit y = false)
    (hne : y ≠ []) : sanitize_name y = y := by
  have hspace : ∀ c ∈ y, isPySpace c = false := by
    intro c hc
    have hw := hall c hc
    simp only [isLowerWordChar, decide_eq_true_eq] at hw
    simp only [isPySpace, decide_eq_false_iff_not]
    omega
  have h1 : pyStrip y = y :=
    stripBoth_eq_self (headSat_false_of_all hspace) (all_not_lastSat hspace)
  have h2 : subNonWord y = y := by
    rw [subNonWord]
    have hid : ∀ c ∈ y, (if isWordChar c then c else 95) = id c := by
      intro c hc
      have hw := hall c hc
      simp only [isLowerWordChar, decide_eq_true_eq] at hw
      have hwc : isWordChar c = true := by
        simp only [isWordChar, decide_eq_true_eq]
        omega
      rw [if_pos hwc]
      rfl
    rw [List.map_congr_left hid, List.map_id]
  have h3 : collapse y = y := collapse_id_of_noDD y hnodd
  have h4 : stripUnd y = y := stripBoth_eq_self hhead hlast
  have h5 : sanPre y = y := by rw [sanPre, h1, h2, h3, h4]
  have h6 : y.isEmpty = false := by
    cases y with
    | nil => exact absurd rfl hne
    | cons a s => rfl
  rw [sanitize_name, h5, h6, hdig]
  simp only [Bool.or_self, Bool.false_eq_true, if_false]
  exact map_lower_id hall

/-- Counterexample to C1 as stated: `sanitize_name` is not idempotent on
the empty string (nor on pure-symbol strings).  The fallback produces
`col_`, whose trailing underscore a second application strips to `col`. -/
theorem sanitize_idempotence_cex :
    sanitize_name (pyString ("")) = colFallback ∧
    sanitize_name (sanitize_name (pyString (""))) = pyString ("col") ∧
    sanitize_name (sanitize_name (pyString (""))) ≠ sanitize_name (pyString ("")) := by decide

/-- C1 as amended: `sanitize_name` is total and deterministic, and on
every ASCII input — where this embedding's character classes coincide with
Python's Unicode-default `\w`, `\s`, `isdigit` and `lower` — its result
matches `^[a-z_][a-z0-9_]*$` and it is idempotent whenever the result is
not the bare fallback `col_` (those inputs whose intermediate name before
the fallback is nonempty); when the result is `col_`, a second application
yields `col` instead, which is a fixed point.  Non-ASCII inputs fall
outside the regex clause altogether: Unicode `\w` keeps non-ASCII letters,
so the real program maps `É` to `é`, which the regex rejects. -/
theorem sanitize_spec (x : Str) (_hx : isAsciiStr x = true) :
    matchesIdent (sanitize_name x) = true ∧
    (sanitize_name x ≠ colFallback → sanitize_name (sanitize_name x) = sanitize_name x) ∧
    (sanitize_name x = colFallback → sanitize_name (sanitize_name x) = pyString ("col")) := by
  have hword := sanPre_word x
  have hnodd := sanPre_noDD x
  have hhead := sanPre_headSat x
  have hlast := sanPre_lastSat x
  cases hsp : sanPre x with
  | nil =>
    have hy : sanitize_name x = colFallback := by
      rw [sanitize_name, hsp]
      decide
    refine ⟨by rw [hy]; decide, fun hne => absurd hy hne, fun h => by rw [h]; decide⟩
  | cons c t =>
    rw [hsp] at hword hnodd hhead hlast
    have hcw : isWordChar c = true := hword c (List.mem_cons_self c t)
    have hc95 : c ≠ 95 := by
      have hhc : decide (c = 95) = false := hhead
      exact of_decide_eq_false hhc
    have hallmap : ∀ d ∈ (c :: t).map lowerChar, isLowerWordChar d = true := by
      intro d hd
      obtain ⟨a, ha, rfl⟩ := List.mem_map.1 hd
      exact lowerChar_word (hword a ha)
    have hmapne : (c :: t).map lowerChar ≠ [] := by simp
    by_cases hdig : isDigitChar c = true
    · -- fallback branch: digit head
      have hy : sanitize_name x = colFallback ++ (c :: t).map lowerChar := by
        rw [sanitize_name, hsp]
        simp only [List.isEmpty_cons, startsWithDigit, hdig, Bool.false_or, if_true,
          List.map_append]
        rw [show colFallback.map lowerChar = colFallback from by decide]
      have hally : ∀ d ∈ colFallback ++ (c :: t).map lowerChar, isLowerWordChar d = true := by
        intro d hd
        rcases List.mem_append.1 hd with h | h
        · have hd4 : d = 99 ∨ d = 111 ∨ d = 108 ∨ d = 95 := by
            simpa [colFallback] using h
          rcases hd4 with rfl | rfl | rfl | rfl <;> decide
        · exact hallmap d h
      have hm : noDD (lowerChar c :: t.map lowerChar) = true := noDD_map_lower (c :: t) hnodd
      have hc95l : lowerChar c ≠ 95 := fun hcl => hc95 (lowerChar_eq_95_iff.1 hcl)
      have hnoddy : noDD (colFallback ++ (c :: t).map lowerChar) = true := by
        show noDD (99 :: 111 :: 108 :: 95 :: lowerChar c :: t.map lowerChar) = true
        rw [noDD_cons2, noDD_cons2, noDD_cons2, noDD_cons2]
        simp [hm, hc95l]
      have hheady : headSat isUnd (colFallback ++ (c :: t).map lowerChar) = false := by
        show isUnd 99 = false
        decide
      have hlasty : lastSat isUnd (colFallback ++ (c :: t).map lowerChar) = false := by
        rw [lastSat_append isUnd colFallback _ hmapne, lastSat_map_lower]
        exact hlast
      have hdigy : startsWithDigit (colFallback ++ (c :: t).map lowerChar) = false := by
        show isDigitChar 99 = false
        decide
      have hney : colFallback ++ (c :: t).map lowerChar ≠ [] := by simp [colFallback]
      have hfix := sanitize_fixed _ hally hnoddy hheady hlasty hdigy hney
      have hallm : ((c :: t).map lowerChar).all isLowerWordChar = true :=
        List.all_eq_true.2 hallmap
      refine ⟨?_, fun _ => by rw [hy]; exact hfix, fun h => by rw [h]; decide⟩
      rw [hy]
      show matchesIdent (99 :: (111 :: 108 :: 95 :: (c :: t).map lowerChar)) = true
      simp [matchesIdent, List.all_append, hallm]
      exact ⟨by decide, by decide, by decide, lowerChar_word hcw,
        fun a ha => lowerChar_word (hword a (List.mem_cons_of_mem c ha))⟩
    · -- no fallback: head is a letter
      have hdigf : isDigitChar c = false := Bool.eq_false_iff.2 hdig
      have hy : sanitize_name x = (c :: t).map lowerChar := by
        rw [sanitize_name, hsp]
        simp only [List.isEmpty_cons, startsWithDigit, hdigf, Bool.false_or, Bool.false_eq_true,
          if_false]
      have halpha : (65 ≤ c ∧ c ≤ 90) ∨ (97 ≤ c ∧ c ≤ 122) := by
        simp only [isWordChar, decide_eq_true_eq] at hcw
        simp only [isDigitChar, decide_eq_false_iff_not] at hdigf
        omega
      have hlow : 97 ≤ lowerChar c ∧ lowerChar c ≤ 122 := by
        unfold lowerChar
        by_cases h2 : 65 ≤ c ∧ c ≤ 90
        · rw [if_pos h2]; omega
        · rw [if_neg h2]; omega
      have hc95l : lowerChar c ≠ 95 := by omega
      have hnoddy := noDD_map_lower (c :: t) hnodd
      have hheady : headSat isUnd ((c :: t).map lowerChar) = false := by
        show isUnd (lowerChar c) = false
        simp [isUnd, hc95l]
      have hlasty : lastSat isUnd ((c :: t).map lowerChar) = false := by
        rw [lastSat_map_lower]
        exact hlast
      have hdigy : startsWithDigit ((c :: t).map lowerChar) = false := by
        show isDigitChar (lowerChar c) = false
        simp only [isDigitChar, decide_eq_false_iff_not]
        omega
      have hfix := sanitize_fixed _ hallmap hnoddy hheady hlasty hdigy hmapne
      refine ⟨?_, fun _ => by rw [hy]; exact hfix, fun h => by rw [h]; decide⟩
      rw [hy]
      show matchesIdent (lowerChar c :: t.map lowerChar) = true
      have hhead2 : decide ((97 ≤ lowerChar c ∧ lowerChar c ≤ 122) ∨ lowerChar c = 95) = true :=
        decide_eq_true (Or.inl hlow)
      have halls : (t.map lowerChar).all isLowerWordChar = true :=
        List.all_eq_true.2 (fun d hd => by
          obtain ⟨a, ha, rfl⟩ := List.mem_map.1 hd
          exact lowerChar_word (hword a (List.mem_cons_of_mem c ha)))
      simp [matchesIdent, hhead2, halls]

/-- Witness for C1 (amended) at a concrete ASCII input with a non-`col_`
result. -/
theorem sanitize_spec_witness :
    sanitize_name (sanitize_name (pyString ("My Table"))) =
      sanitize_name (pyString ("My Table")) :=
  (sanitize_spec (pyString ("My Table")) (by decide)).2.1 (by decide)

end ExcelJson
